import Mathlib

/-!
Shallow embedding of `interop_input_stream.cpp` (Apache Ignite C++ binary
interop input stream) and verification of its natural-language specification.

Modelling conventions:
- `int32_t` values are modelled as `Int`; every arithmetic operation the C++
  code performs on 32-bit integers is wrapped with `wrap32`, the two's
  complement reduction to the signed 32-bit range.
- The backing memory (`InteropMemory`) is a list of bytes (each `< 256` for
  well-formed memories) together with its logical length and the diagnostic
  pointer value returned by `PointerLong()`.
- C++ exceptions (`IGNITE_ERROR_FORMATTED_*`) become an `IgniteError` value;
  every mutating operation returns the outcome paired with the final state of
  the stream object, so that partial mutation before a throw is observable.
- Reads through `reinterpret_cast` are modelled as little-endian (host order
  on the reference platforms) reassembly of the bytes at the given offsets.
-/

namespace Ignite

/-- Two's-complement reduction of an integer into the signed 32-bit range
`[-2147483648, 2147483648)`, modelling C++ `int32_t` arithmetic results. -/
def wrap32 (x : Int) : Int := (x + 2147483648) % 4294967296 - 2147483648

/-- The external `InteropMemory` collaborator: a byte region with a logical
length (`Length()`) and a diagnostic identity (`PointerLong()`). -/
structure InteropMemory where
  bytes : List Nat
  length : Int
  ptr : Int
  deriving DecidableEq

/-- `InteropMemory::Data()`. -/
def InteropMemory.Data (m : InteropMemory) : List Nat := m.bytes

/-- `InteropMemory::Length()`. -/
def InteropMemory.Length (m : InteropMemory) : Int := m.length

/-- `InteropMemory::PointerLong()`. -/
def InteropMemory.PointerLong (m : InteropMemory) : Int := m.ptr

/-- The three `IGNITE_ERROR_FORMATTED` throw sites of the source file, with
their diagnostic fields.  `notEnoughData` is the spec's `InsufficientData`
kind; the other two are the spec's `OutOfBounds` kind. -/
inductive IgniteError where
  | notEnoughData (memPtr lenVal posVal requested : Int)
  | positionOutOfBounds (memPtr lenVal posVal : Int)
  | streamLenOutOfBounds (memPtr lenVal memLen : Int)
  deriving DecidableEq

/-- Classification of an error as the spec's `InsufficientData` kind. -/
def IgniteError.isInsufficientData : IgniteError → Bool
  | .notEnoughData _ _ _ _ => true
  | _ => false

/-- Classification of an error as the spec's `OutOfBounds` kind. -/
def IgniteError.isOutOfBounds : IgniteError → Bool
  | .positionOutOfBounds _ _ _ => true
  | .streamLenOutOfBounds _ _ _ => true
  | _ => false

/-- The stream state: cached memory reference, cached data snapshot, cached
length and the cursor position (fields `mem`, `data`, `len`, `pos`). -/
structure InteropInputStream where
  mem : InteropMemory
  data : List Nat
  len : Int
  pos : Int
  deriving DecidableEq

/-- Byte fetched at (possibly out-of-range) offset `i` of a byte list; reads
outside the list are modelled as 0 (the claims only constrain in-bounds
reads). -/
def byteAt (d : List Nat) (i : Int) : Nat :=
  if 0 ≤ i then d.getD i.toNat 0 else 0

/-- Little-endian reassembly of `n` bytes starting at offset `p`, modelling
`*reinterpret_cast<const type*>(data + pos)` before sign interpretation. -/
def bytesToNat (d : List Nat) (p : Int) : Nat → Nat
  | 0 => 0
  | n + 1 => byteAt d p + 256 * bytesToNat d (p + 1) n

/-- Reinterpretation of a raw `w`-bit pattern as an unsigned integer. -/
def toUnsigned (w : Nat) (v : Nat) : Int := (v : Int) % 2 ^ w

/-- Reinterpretation of a raw `w`-bit pattern as a signed two's complement
integer. -/
def toSigned (w : Nat) (v : Nat) : Int :=
  if (v : Int) % 2 ^ w < 2 ^ (w - 1) then (v : Int) % 2 ^ w
  else (v : Int) % 2 ^ w - 2 ^ w

/-- `InteropInputStream::InteropInputStream(const InteropMemory*)`. -/
def mkStream (m : InteropMemory) : InteropInputStream :=
  ⟨m, m.Data, m.Length, 0⟩

/-- `InteropInputStream::InteropInputStream(const InteropMemory*, int32_t)`:
initializes the fields, then throws when `len > mem->Length()`. -/
def mkStreamWithLen (m : InteropMemory) (lenArg : Int) :
    Except IgniteError InteropInputStream :=
  if m.Length < lenArg then
    .error (.streamLenOutOfBounds m.PointerLong lenArg m.Length)
  else
    .ok ⟨m, m.Data, lenArg, 0⟩

/-- `InteropInputStream::EnsureEnoughData(int32_t)`: succeeds when
`len - pos >= cnt` (32-bit arithmetic), otherwise throws the
not-enough-data error with fields memPtr, len, pos, requested. -/
def EnsureEnoughData (s : InteropInputStream) (cnt : Int) : Except IgniteError Unit :=
  if cnt ≤ wrap32 (s.len - s.pos) then .ok ()
  else .error (.notEnoughData s.mem.PointerLong s.len s.pos cnt)

/-- `InteropInputStream::Shift(int32_t)`: `pos += cnt`, unchecked. -/
def Shift (s : InteropInputStream) (cnt : Int) : InteropInputStream :=
  { s with pos := wrap32 (s.pos + cnt) }

/-- Expansion of the `IGNITE_INTEROP_IN_READ(type, len)` macro: ensure enough
data, read the raw bit pattern at `pos`, shift by `len`.  Returns the raw
(uninterpreted) pattern together with the final stream state. -/
def readRaw (s : InteropInputStream) (size : Nat) :
    Except IgniteError Nat × InteropInputStream :=
  match EnsureEnoughData s (size : Int) with
  | .error e => (.error e, s)
  | .ok _ => (.ok (bytesToNat s.data s.pos size), Shift s (size : Int))

/-- Interpretation of the outcome of a raw read by a width-specific
reinterpretation function. -/
def mapRead (r : Except IgniteError Nat × InteropInputStream) (f : Nat → Int) :
    Except IgniteError Int × InteropInputStream :=
  match r with
  | (.error e, t) => (.error e, t)
  | (.ok v, t) => (.ok (f v), t)

/-- `InteropInputStream::ReadInt8()`. -/
def ReadInt8 (s : InteropInputStream) : Except IgniteError Int × InteropInputStream :=
  mapRead (readRaw s 1) (toSigned 8)

/-- `InteropInputStream::ReadInt16()`. -/
def ReadInt16 (s : InteropInputStream) : Except IgniteError Int × InteropInputStream :=
  mapRead (readRaw s 2) (toSigned 16)

/-- `InteropInputStream::ReadUInt16()`. -/
def ReadUInt16 (s : InteropInputStream) : Except IgniteError Int × InteropInputStream :=
  mapRead (readRaw s 2) (toUnsigned 16)

/-- `InteropInputStream::ReadInt32()`. -/
def ReadInt32 (s : InteropInputStream) : Except IgniteError Int × InteropInputStream :=
  mapRead (readRaw s 4) (toSigned 32)

/-- `InteropInputStream::ReadInt64()`. -/
def ReadInt64 (s : InteropInputStream) : Except IgniteError Int × InteropInputStream :=
  mapRead (readRaw s 8) (toSigned 64)

/-- Common body of the positional reads `ReadInt8(int32_t)`,
`ReadInt16(int32_t)`, `ReadInt32(int32_t)`: compute
`delta = pos + size - this->pos`; when `delta > 0` call
`EnsureEnoughData(delta)`; read at absolute offset `pos`; never move the
cursor. -/
def readAtRaw (s : InteropInputStream) (p : Int) (size : Nat) :
    Except IgniteError Nat × InteropInputStream :=
  if 0 < wrap32 (p + (size : Int) - s.pos) then
    match EnsureEnoughData s (wrap32 (p + (size : Int) - s.pos)) with
    | .error e => (.error e, s)
    | .ok _ => (.ok (bytesToNat s.data p size), s)
  else
    (.ok (bytesToNat s.data p size), s)

/-- `InteropInputStream::ReadInt8(int32_t pos)`. -/
def ReadInt8At (s : InteropInputStream) (p : Int) :
    Except IgniteError Int × InteropInputStream :=
  mapRead (readAtRaw s p 1) (toSigned 8)

/-- `InteropInputStream::ReadInt16(int32_t pos)`. -/
def ReadInt16At (s : InteropInputStream) (p : Int) :
    Except IgniteError Int × InteropInputStream :=
  mapRead (readAtRaw s p 2) (toSigned 16)

/-- `InteropInputStream::ReadInt32(int32_t pos)`. -/
def ReadInt32At (s : InteropInputStream) (p : Int) :
    Except IgniteError Int × InteropInputStream :=
  mapRead (readAtRaw s p 4) (toSigned 32)

/-- `InteropInputStream::ReadBool()`: `ReadInt8() == 1`. -/
def ReadBool (s : InteropInputStream) : Except IgniteError Bool × InteropInputStream :=
  match ReadInt8 s with
  | (.error e, t) => (.error e, t)
  | (.ok v, t) => (.ok (v == 1), t)

/-- The loop body of `InteropInputStream::ReadBoolArray`: `n` repeated
single-boolean reads; an exception aborts the loop, keeping the position
mutations already performed. -/
def ReadBoolArrayAux : InteropInputStream → Nat →
    Except IgniteError (List Bool) × InteropInputStream
  | s, 0 => (.ok [], s)
  | s, n + 1 =>
    match ReadBool s with
    | (.error e, t) => (.error e, t)
    | (.ok b, t) =>
      match ReadBoolArrayAux t n with
      | (.error e, u) => (.error e, u)
      | (.ok bs, u) => (.ok (b :: bs), u)

/-- `InteropInputStream::ReadBoolArray(bool*, int32_t)`: the for-loop runs
`len` iterations (none when `len ≤ 0`). -/
def ReadBoolArray (s : InteropInputStream) (count : Int) :
    Except IgniteError (List Bool) × InteropInputStream :=
  ReadBoolArrayAux s count.toNat

/-- Bytes copied out by `memcpy(dest, data + pos, cnt)`; a non-positive
count copies nothing. -/
def readBytesFrom (d : List Nat) (p : Int) (n : Nat) : List Nat :=
  (List.range n).map fun i => byteAt d (p + (i : Int))

/-- `InteropInputStream::CopyAndShift(int8_t*, int32_t, int32_t)`: ensure
enough data, copy `cnt` bytes verbatim, shift by `cnt`.  The copied bytes are
returned (the contents written to the destination buffer). -/
def CopyAndShift (s : InteropInputStream) (cnt : Int) :
    Except IgniteError (List Nat) × InteropInputStream :=
  match EnsureEnoughData s cnt with
  | .error e => (.error e, s)
  | .ok _ => (.ok (readBytesFrom s.data s.pos cnt.toNat), Shift s cnt)

/-- C++ `x << k` on a 32-bit signed integer: two's complement wrap of
`x * 2 ^ k`, as used by the `IGNITE_INTEROP_IN_READ_ARRAY(len, shift)`
macro. -/
def shl32 (x : Int) (k : Nat) : Int := wrap32 (x * 2 ^ k)

/-- `InteropInputStream::ReadInt8Array`. -/
def ReadInt8Array (s : InteropInputStream) (count : Int) :
    Except IgniteError (List Nat) × InteropInputStream :=
  CopyAndShift s (shl32 count 0)

/-- `InteropInputStream::ReadInt16Array`. -/
def ReadInt16Array (s : InteropInputStream) (count : Int) :
    Except IgniteError (List Nat) × InteropInputStream :=
  CopyAndShift s (shl32 count 1)

/-- `InteropInputStream::ReadUInt16Array`. -/
def ReadUInt16Array (s : InteropInputStream) (count : Int) :
    Except IgniteError (List Nat) × InteropInputStream :=
  CopyAndShift s (shl32 count 1)

/-- `InteropInputStream::ReadInt32Array`. -/
def ReadInt32Array (s : InteropInputStream) (count : Int) :
    Except IgniteError (List Nat) × InteropInputStream :=
  CopyAndShift s (shl32 count 2)

/-- `InteropInputStream::ReadInt64Array`. -/
def ReadInt64Array (s : InteropInputStream) (count : Int) :
    Except IgniteError (List Nat) × InteropInputStream :=
  CopyAndShift s (shl32 count 3)

/-- `InteropInputStream::ReadFloatArray`. -/
def ReadFloatArray (s : InteropInputStream) (count : Int) :
    Except IgniteError (List Nat) × InteropInputStream :=
  CopyAndShift s (shl32 count 2)

/-- `InteropInputStream::ReadDoubleArray`. -/
def ReadDoubleArray (s : InteropInputStream) (count : Int) :
    Except IgniteError (List Nat) × InteropInputStream :=
  CopyAndShift s (shl32 count 3)

/-- `InteropInputStream::Remaining()`. -/
def Remaining (s : InteropInputStream) : Int := wrap32 (s.len - s.pos)

/-- `InteropInputStream::Position()` (the getter). -/
def Position (s : InteropInputStream) : Int := s.pos

/-- `InteropInputStream::Position(int32_t)` (the setter, the spec's
`SetPosition`): stores `pos` when `pos <= len`, otherwise throws the
out-of-bounds error without mutating the state. -/
def SetPosition (s : InteropInputStream) (p : Int) :
    Except IgniteError Unit × InteropInputStream :=
  if p ≤ s.len then (.ok (), { s with pos := p })
  else (.error (.positionOutOfBounds s.mem.PointerLong s.len p), s)

/-- `InteropInputStream::Ignore(int32_t)` (the spec's `Skip`): a bare
`Shift(cnt)`. -/
def Ignore (s : InteropInputStream) (cnt : Int) : InteropInputStream :=
  Shift s cnt

/-- `InteropInputStream::Synchronize()`: re-reads `data` and `len` from the
memory object; the memory's current (possibly externally mutated) state is
passed explicitly. -/
def Synchronize (s : InteropInputStream) (m : InteropMemory) : InteropInputStream :=
  { s with mem := m, data := m.Data, len := m.Length }

/-- The spec's standing invariant `0 <= position <= limit`. -/
def Invariant (s : InteropInputStream) : Prop := 0 ≤ s.pos ∧ s.pos ≤ s.len

/-- A concrete ten-byte memory used by the witness theorems. -/
def memEx : InteropMemory := ⟨[5, 1, 2, 3, 4, 5, 6, 7, 8, 9], 10, 42⟩

/-- A concrete stream over `memEx` used by the witness theorems. -/
def sEx : InteropInputStream := mkStream memEx

theorem wrap32_eq_self (x : Int) (h1 : -(2 ^ 31) ≤ x) (h2 : x < 2 ^ 31) :
    wrap32 x = x := by
  unfold wrap32
  omega

theorem ensure_ok (s : InteropInputStream) (cnt : Int)
    (h : cnt ≤ wrap32 (s.len - s.pos)) : EnsureEnoughData s cnt = .ok () := by
  unfold EnsureEnoughData
  rw [if_pos h]

theorem ensure_err (s : InteropInputStream) (cnt : Int)
    (h : wrap32 (s.len - s.pos) < cnt) :
    EnsureEnoughData s cnt =
      .error (.notEnoughData s.mem.PointerLong s.len s.pos cnt) := by
  unfold EnsureEnoughData
  rw [if_neg (by omega)]

theorem ensure_ok_inv (s : InteropInputStream) (cnt : Int)
    (h : EnsureEnoughData s cnt = .ok ()) : cnt ≤ wrap32 (s.len - s.pos) := by
  unfold EnsureEnoughData at h
  by_cases hc : cnt ≤ wrap32 (s.len - s.pos)
  · exact hc
  · rw [if_neg hc] at h
    exact absurd h (by simp)

/-- Behaviour of the sequential-read macro under a well-formed state: the read
fails exactly when fewer than `size` bytes remain, and otherwise returns the
raw pattern at `[pos, pos + size)` and advances `pos` by `size`. -/
theorem readRaw_spec (s : InteropInputStream) (size : Nat)
    (h0 : 0 ≤ s.pos) (h1 : s.pos ≤ s.len) (h2 : s.len < 2 ^ 31) :
    (s.len - s.pos < (size : Int) →
      readRaw s size =
        (.error (.notEnoughData s.mem.PointerLong s.len s.pos (size : Int)), s)) ∧
    ((size : Int) ≤ s.len - s.pos →
      readRaw s size =
        (.ok (bytesToNat s.data s.pos size), { s with pos := s.pos + (size : Int) })) := by
  have hw : wrap32 (s.len - s.pos) = s.len - s.pos :=
    wrap32_eq_self _ (by omega) (by omega)
  constructor
  · intro hlt
    unfold readRaw
    rw [ensure_err s _ (by omega)]
  · intro hge
    have hw2 : wrap32 (s.pos + (size : Int)) = s.pos + (size : Int) :=
      wrap32_eq_self _ (by omega) (by omega)
    unfold readRaw
    rw [ensure_ok s _ (by omega)]
    show (Except.ok (bytesToNat s.data s.pos size), Shift s (size : Int)) = _
    unfold Shift
    rw [hw2]

theorem mapRead_state (r : Except IgniteError Nat × InteropInputStream)
    (f : Nat → Int) : (mapRead r f).2 = r.2 := by
  rcases r with ⟨a, t⟩
  cases a <;> rfl

theorem mapRead_ok_inv (r : Except IgniteError Nat × InteropInputStream)
    (f : Nat → Int) (v : Int) (t : InteropInputStream)
    (h : mapRead r f = (.ok v, t)) : ∃ w, r = (.ok w, t) ∧ v = f w := by
  rcases r with ⟨a, u⟩
  cases a with
  | error e => exact absurd (congrArg Prod.fst h) (by simp [mapRead])
  | ok w =>
    refine ⟨w, ?_, ?_⟩
    · have := congrArg Prod.snd h
      simp only [mapRead] at this
      rw [this]
    · have := congrArg Prod.fst h
      simp only [mapRead] at this
      exact (Except.ok.inj this.symm)

/-- The behaviour claimed for a sequential fixed-width read of `size` bytes
interpreted by `interp`: failure with the not-enough-data error when fewer
than `size` bytes remain (leaving the state unchanged), success with the
interpreted pattern at `[pos, pos + size)` and `pos` advanced by `size`
otherwise. -/
def SeqReadSpec (op : InteropInputStream → Except IgniteError Int × InteropInputStream)
    (size : Nat) (interp : Nat → Int) (s : InteropInputStream) : Prop :=
  if s.len - s.pos < (size : Int) then
    op s = (.error (.notEnoughData s.mem.PointerLong s.len s.pos (size : Int)), s)
  else
    op s = (.ok (interp (bytesToNat s.data s.pos size)), { s with pos := s.pos + (size : Int) })

theorem seqRead_spec (size : Nat) (interp : Nat → Int) (s : InteropInputStream)
    (h0 : 0 ≤ s.pos) (h1 : s.pos ≤ s.len) (h2 : s.len < 2 ^ 31) :
    SeqReadSpec (fun st => mapRead (readRaw st size) interp) size interp s := by
  unfold SeqReadSpec
  by_cases hc : s.len - s.pos < (size : Int)
  · rw [if_pos hc]
    show mapRead (readRaw s size) interp = _
    rw [(readRaw_spec s size h0 h1 h2).1 hc]
    rfl
  · rw [if_neg hc]
    show mapRead (readRaw s size) interp = _
    rw [(readRaw_spec s size h0 h1 h2).2 (by omega)]
    rfl

/-- C1: for every sequential fixed-width read (signed 8/16/32/64-bit integer
and unsigned 16-bit integer), if `limit - position < size` before the read,
the read fails with `InsufficientData`; otherwise it returns the value stored
at byte offsets `[position, position + size)` of the buffer interpreted as a
host-endian integer of that width and advances `position` by exactly `size`.
Stated for every state satisfying the standing invariant
(`0 ≤ pos ≤ len < 2^31`, the range of an `int32_t` length). -/
theorem C1_sequential_fixed_width_reads (s : InteropInputStream)
    (h0 : 0 ≤ s.pos) (h1 : s.pos ≤ s.len) (h2 : s.len < 2 ^ 31) :
    SeqReadSpec ReadInt8 1 (toSigned 8) s ∧
    SeqReadSpec ReadInt16 2 (toSigned 16) s ∧
    SeqReadSpec ReadUInt16 2 (toUnsigned 16) s ∧
    SeqReadSpec ReadInt32 4 (toSigned 32) s ∧
    SeqReadSpec ReadInt64 8 (toSigned 64) s :=
  ⟨seqRead_spec 1 (toSigned 8) s h0 h1 h2,
   seqRead_spec 2 (toSigned 16) s h0 h1 h2,
   seqRead_spec 2 (toUnsigned 16) s h0 h1 h2,
   seqRead_spec 4 (toSigned 32) s h0 h1 h2,
   seqRead_spec 8 (toSigned 64) s h0 h1 h2⟩

/-- Witness for C1 on the concrete ten-byte stream `sEx`. -/
theorem C1_witness :
    SeqReadSpec ReadInt8 1 (toSigned 8) sEx ∧
    SeqReadSpec ReadInt16 2 (toSigned 16) sEx ∧
    SeqReadSpec ReadUInt16 2 (toUnsigned 16) sEx ∧
    SeqReadSpec ReadInt32 4 (toSigned 32) sEx ∧
    SeqReadSpec ReadInt64 8 (toSigned 64) sEx :=
  C1_sequential_fixed_width_reads sEx (by decide) (by decide) (by decide)

/-- C2: the code's `Ignore` (the spec's `Skip`) performs NO bounds check: it
is a bare `Shift`.  On the empty stream (`limit = 0`, `position = 0`),
`Ignore 5` completes without any error and sets `position` to `5`, five bytes
past the limit, instead of failing with `InsufficientData` as the claim
requires. -/
theorem C2_ignore_is_unchecked :
    Ignore (mkStream ⟨[], 0, 0⟩) 5 = ⟨⟨[], 0, 0⟩, [], 0, 5⟩ ∧
    (mkStream ⟨[], 0, 0⟩).len - (mkStream ⟨[], 0, 0⟩).pos < 5 :=
  ⟨rfl, by decide⟩

/-- C6: construction of a cursor with an explicit limit succeeds with
`position = 0` (and the requested value as `len`) when
`limit ≤ owner.Length()`, and fails with the `OutOfBounds` error when
`limit > owner.Length()`. -/
theorem C6_explicit_limit_construction (m : InteropMemory) (lim : Int) :
    (lim ≤ m.Length → mkStreamWithLen m lim = .ok ⟨m, m.Data, lim, 0⟩) ∧
    (m.Length < lim →
      mkStreamWithLen m lim =
        .error (.streamLenOutOfBounds m.PointerLong lim m.Length) ∧
      (IgniteError.streamLenOutOfBounds m.PointerLong lim m.Length).isOutOfBounds = true) := by
  unfold mkStreamWithLen
  constructor
  · intro h
    rw [if_neg (by omega)]
  · intro h
    rw [if_pos h]
    exact ⟨rfl, rfl⟩

/-- Witness for C6: both branches exercised on `memEx` (length 10). -/
theorem C6_witness :
    mkStreamWithLen memEx 10 = .ok ⟨memEx, memEx.Data, 10, 0⟩ ∧
    mkStreamWithLen memEx 11 =
      .error (.streamLenOutOfBounds memEx.PointerLong 11 memEx.Length) :=
  ⟨(C6_explicit_limit_construction memEx 10).1 (by decide),
   ((C6_explicit_limit_construction memEx 11).2 (by decide)).1⟩

/-- C7: `SetPosition p` (the code's `Position(int32_t)`) sets `position = p`
when `p ≤ limit`; when `p > limit` it fails with the `OutOfBounds` error and
leaves the state (hence `position`) unchanged. -/
theorem C7_set_position (s : InteropInputStream) (p : Int) :
    (p ≤ s.len → SetPosition s p = (.ok (), { s with pos := p })) ∧
    (s.len < p →
      SetPosition s p =
        (.error (.positionOutOfBounds s.mem.PointerLong s.len p), s) ∧
      (IgniteError.positionOutOfBounds s.mem.PointerLong s.len p).isOutOfBounds = true) := by
  unfold SetPosition
  constructor
  · intro h
    rw [if_pos h]
  · intro h
    rw [if_neg (by omega)]
    exact ⟨rfl, rfl⟩

/-- Witness for C7: both branches exercised on `sEx` (limit 10). -/
theorem C7_witness :
    SetPosition sEx 7 = (.ok (), { sEx with pos := 7 }) ∧
    SetPosition sEx 11 =
      (.error (.positionOutOfBounds sEx.mem.PointerLong sEx.len 11), sEx) :=
  ⟨(C7_set_position sEx 7).1 (by decide),
   ((C7_set_position sEx 11).2 (by decide)).1⟩

/-- C8 is false as stated: on a stream with limit 10, `SetPosition (-5)`
succeeds and stores `-5` as the new position; negative input is NOT
rejected (the code only checks `pos ≤ len`). -/
theorem C8_counterexample :
    SetPosition sEx (-5) = (.ok (), { sEx with pos := -5 }) ∧
    (SetPosition sEx (-5)).2.pos = -5 := by
  constructor
  · rfl
  · rfl

/-- C8 amended: `SetPosition p` accepts every `p ≤ limit`, including every
negative `p` (whenever the limit is nonnegative), and stores the negative
value as the new position; negative input is not treated as invalid. -/
theorem C8_amended_negative_position_accepted (s : InteropInputStream) (p : Int)
    (hneg : p < 0) (hlen : 0 ≤ s.len) :
    SetPosition s p = (.ok (), { s with pos := p }) ∧
    (SetPosition s p).2.pos = p := by
  have h : SetPosition s p = (.ok (), { s with pos := p }) := by
    unfold SetPosition
    rw [if_pos (by omega)]
  exact ⟨h, by rw [h]⟩

/-- Witness for C8's amended claim at `p = -3` on `sEx`. -/
theorem C8_amended_witness :
    SetPosition sEx (-3) = (.ok (), { sEx with pos := -3 }) ∧
    (SetPosition sEx (-3)).2.pos = -3 :=
  C8_amended_negative_position_accepted sEx (-3) (by decide) (by decide)

/-- The behaviour claimed for a positional read of `size` bytes at absolute
offset `p` interpreted by `interp`: the state is never mutated; with
`delta = p + size - position`, when `delta > 0` the read succeeds iff
`limit - position ≥ delta` (failing with the not-enough-data error
otherwise), and when `delta ≤ 0` no bounds check at all is performed (in
particular no check that `p ≥ 0`) and the read succeeds. -/
def PosReadSpec (op : InteropInputStream → Int → Except IgniteError Int × InteropInputStream)
    (size : Nat) (interp : Nat → Int) (s : InteropInputStream) (p : Int) : Prop :=
  (op s p).2 = s ∧
  (0 < p + (size : Int) - s.pos →
    (p + (size : Int) - s.pos ≤ s.len - s.pos →
      (op s p).1 = .ok (interp (bytesToNat s.data p size))) ∧
    (s.len - s.pos < p + (size : Int) - s.pos →
      (op s p).1 =
        .error (.notEnoughData s.mem.PointerLong s.len s.pos (p + (size : Int) - s.pos)))) ∧
  (p + (size : Int) - s.pos ≤ 0 →
    (op s p).1 = .ok (interp (bytesToNat s.data p size)))

theorem readAtRaw_state (s : InteropInputStream) (p : Int) (size : Nat) :
    (readAtRaw s p size).2 = s := by
  unfold readAtRaw
  split
  · cases hE : EnsureEnoughData s (wrap32 (p + (size : Int) - s.pos)) <;> rfl
  · rfl

theorem posRead_spec (size : Nat) (interp : Nat → Int) (s : InteropInputStream)
    (p : Int) (hsz1 : 1 ≤ size) (hsz8 : size ≤ 8)
    (h0 : 0 ≤ s.pos) (h1 : s.pos ≤ s.len) (h2 : s.len < 2 ^ 31)
    (hp1 : -(2 ^ 31) ≤ p + 1 - s.pos) (hp2 : p + 8 - s.pos < 2 ^ 31) :
    PosReadSpec (fun st q => mapRead (readAtRaw st q size) interp) size interp s p := by
  have hd : wrap32 (p + (size : Int) - s.pos) = p + (size : Int) - s.pos := by
    have hc1 : (1 : Int) ≤ (size : Int) := by exact_mod_cast hsz1
    have hc8 : (size : Int) ≤ 8 := by exact_mod_cast hsz8
    exact wrap32_eq_self _ (by omega) (by omega)
  have hw : wrap32 (s.len - s.pos) = s.len - s.pos :=
    wrap32_eq_self _ (by omega) (by omega)
  refine ⟨?_, ?_, ?_⟩
  · show (mapRead (readAtRaw s p size) interp).2 = s
    rw [mapRead_state, readAtRaw_state]
  · intro hpos
    constructor
    · intro hfits
      show (mapRead (readAtRaw s p size) interp).1 = _
      unfold readAtRaw
      rw [hd, if_pos hpos, ensure_ok s _ (by omega)]
      rfl
    · intro hover
      show (mapRead (readAtRaw s p size) interp).1 = _
      unfold readAtRaw
      rw [hd, if_pos hpos, ensure_err s _ (by omega)]
      rfl
  · intro hnp
    show (mapRead (readAtRaw s p size) interp).1 = _
    unfold readAtRaw
    rw [hd, if_neg (by omega)]
    rfl

/-- C4: for every positional read `ReadXAt(pos)` (8/16/32-bit widths), the
operation computes `delta = pos + size - position`; if `delta > 0` it
validates `limit - position ≥ delta` and fails with `InsufficientData` when
that validation fails; if `delta ≤ 0` no bounds check is performed (including
no check that `pos ≥ 0`); on success it returns the value at absolute offset
`pos`, and in all cases the cursor position is left unchanged.  Stated for
well-formed states and for every offset `p` for which the `delta`
computation stays inside 32-bit range (all `int32_t` offsets except those
within 8 of overflow). -/
theorem C4_positional_reads (s : InteropInputStream) (p : Int)
    (h0 : 0 ≤ s.pos) (h1 : s.pos ≤ s.len) (h2 : s.len < 2 ^ 31)
    (hp1 : -(2 ^ 31) ≤ p + 1 - s.pos) (hp2 : p + 8 - s.pos < 2 ^ 31) :
    PosReadSpec ReadInt8At 1 (toSigned 8) s p ∧
    PosReadSpec ReadInt16At 2 (toSigned 16) s p ∧
    PosReadSpec ReadInt32At 4 (toSigned 32) s p :=
  ⟨posRead_spec 1 (toSigned 8) s p (by decide) (by decide) h0 h1 h2 hp1 hp2,
   posRead_spec 2 (toSigned 16) s p (by decide) (by decide) h0 h1 h2 hp1 hp2,
   posRead_spec 4 (toSigned 32) s p (by decide) (by decide) h0 h1 h2 hp1 hp2⟩

/-- Witness for C4 at offset 2 of the concrete stream `sEx`. -/
theorem C4_witness :
    PosReadSpec ReadInt8At 1 (toSigned 8) sEx 2 ∧
    PosReadSpec ReadInt16At 2 (toSigned 16) sEx 2 ∧
    PosReadSpec ReadInt32At 4 (toSigned 32) sEx 2 :=
  C4_positional_reads sEx 2 (by decide) (by decide) (by decide) (by decide) (by decide)

theorem ReadBool_of_avail (s : InteropInputStream)
    (h0 : 0 ≤ s.pos) (h1 : s.pos ≤ s.len) (h2 : s.len < 2 ^ 31)
    (hav : (1 : Int) ≤ s.len - s.pos) :
    ReadBool s = (.ok (toSigned 8 (bytesToNat s.data s.pos 1) == 1),
                  { s with pos := s.pos + 1 }) := by
  unfold ReadBool ReadInt8
  rw [(readRaw_spec s 1 h0 h1 h2).2 (by push_cast; omega)]
  rfl

theorem ReadBool_err (s : InteropInputStream)
    (h0 : 0 ≤ s.pos) (h1 : s.pos ≤ s.len) (h2 : s.len < 2 ^ 31)
    (hlt : s.len - s.pos < 1) :
    ReadBool s = (.error (.notEnoughData s.mem.PointerLong s.len s.pos 1), s) := by
  unfold ReadBool ReadInt8
  rw [(readRaw_spec s 1 h0 h1 h2).1 (by push_cast; omega)]
  rfl

theorem boolArrayAux_succ_ok (s t : InteropInputStream) (b : Bool) (m : Nat)
    (h : ReadBool s = (.ok b, t)) :
    ReadBoolArrayAux s (m + 1) =
      match ReadBoolArrayAux t m with
      | (.error e, u) => (.error e, u)
      | (.ok bs, u) => (.ok (b :: bs), u) := by
  simp only [ReadBoolArrayAux]
  rw [h]

theorem boolArrayAux_succ_err (s t : InteropInputStream) (e : IgniteError) (m : Nat)
    (h : ReadBool s = (.error e, t)) :
    ReadBoolArrayAux s (m + 1) = (.error e, t) := by
  simp only [ReadBoolArrayAux]
  rw [h]

/-- When fewer than `n` bytes remain, the element-wise boolean-array loop
consumes every remaining byte (the position ends at the limit) and then
throws the not-enough-data error for the element that no longer fits. -/
theorem boolArrayAux_fail : ∀ (n : Nat) (mm : InteropMemory) (dd : List Nat) (ll pp : Int),
    0 ≤ pp → pp ≤ ll → ll < 2 ^ 31 → ll - pp < (n : Int) →
    ReadBoolArrayAux ⟨mm, dd, ll, pp⟩ n =
      (.error (.notEnoughData mm.PointerLong ll ll 1), ⟨mm, dd, ll, ll⟩) := by
  intro n
  induction n with
  | zero =>
    intro mm dd ll pp h0 h1 h2 hlt
    exact absurd hlt (by push_cast; omega)
  | succ m ih =>
    intro mm dd ll pp h0 h1 h2 hlt
    by_cases hav : (1 : Int) ≤ ll - pp
    · have hb : ReadBool ⟨mm, dd, ll, pp⟩ =
          (.ok (toSigned 8 (bytesToNat dd pp 1) == 1), ⟨mm, dd, ll, pp + 1⟩) :=
        ReadBool_of_avail ⟨mm, dd, ll, pp⟩ h0 h1 h2 hav
      rw [boolArrayAux_succ_ok _ _ _ m hb]
      rw [ih mm dd ll (pp + 1) (by omega) (by omega) (by omega) (by push_cast at hlt; omega)]
    · have hpp : pp = ll := by omega
      have hb : ReadBool ⟨mm, dd, ll, pp⟩ =
          (.error (.notEnoughData mm.PointerLong ll pp 1), ⟨mm, dd, ll, pp⟩) :=
        ReadBool_err ⟨mm, dd, ll, pp⟩ h0 h1 h2 (show ll - pp < 1 by omega)
      rw [boolArrayAux_succ_err _ _ _ m hb, hpp]

/-- C5 is false as stated: on a two-byte stream, the boolean-array read of 3
elements fails with `InsufficientData` but leaves the position advanced to 2
(the two successfully decoded elements were consumed), not unchanged at 0. -/
theorem C5_counterexample :
    (ReadBoolArray (mkStream ⟨[1, 0], 2, 0⟩) 3).1 =
      .error (.notEnoughData 0 2 2 1) ∧
    (ReadBoolArray (mkStream ⟨[1, 0], 2, 0⟩) 3).2.pos = 2 ∧
    (ReadBoolArray (mkStream ⟨[1, 0], 2, 0⟩) 3).2.pos ≠ (mkStream ⟨[1, 0], 2, 0⟩).pos := by
  refine ⟨rfl, rfl, by decide⟩

/-- C5 amended: a bulk array read (`ReadXArray` for 8/16/32/64-bit integers,
unsigned 16-bit, float and double — all routed through `CopyAndShift`) whose
byte count exceeds the remaining data fails with `InsufficientData` and
leaves the entire state, hence the position, unchanged; the boolean-array
read, however, is an element-wise loop: with fewer than `count` bytes
remaining it still fails with `InsufficientData`, but the position is left
at the limit (all remaining bytes consumed), not at its original value. -/
theorem C5_amended_array_failure (s : InteropInputStream) (count : Int)
    (h0 : 0 ≤ s.pos) (h1 : s.pos ≤ s.len) (h2 : s.len < 2 ^ 31)
    (hcnt : 0 ≤ count) :
    (∀ k : Nat, count * 2 ^ k < 2 ^ 31 → s.len - s.pos < count * 2 ^ k →
      CopyAndShift s (shl32 count k) =
        (.error (.notEnoughData s.mem.PointerLong s.len s.pos (count * 2 ^ k)), s)) ∧
    (ReadInt8Array s count = CopyAndShift s (shl32 count 0) ∧
     ReadInt16Array s count = CopyAndShift s (shl32 count 1) ∧
     ReadUInt16Array s count = CopyAndShift s (shl32 count 1) ∧
     ReadInt32Array s count = CopyAndShift s (shl32 count 2) ∧
     ReadInt64Array s count = CopyAndShift s (shl32 count 3) ∧
     ReadFloatArray s count = CopyAndShift s (shl32 count 2) ∧
     ReadDoubleArray s count = CopyAndShift s (shl32 count 3)) ∧
    (s.len - s.pos < count →
      (ReadBoolArray s count).1 =
        .error (.notEnoughData s.mem.PointerLong s.len s.len 1) ∧
      (ReadBoolArray s count).2.pos = s.len) := by
  have hw : wrap32 (s.len - s.pos) = s.len - s.pos :=
    wrap32_eq_self _ (by omega) (by omega)
  refine ⟨?_, ⟨rfl, rfl, rfl, rfl, rfl, rfl, rfl⟩, ?_⟩
  · intro k hlt31 hrem
    have h0k : 0 ≤ count * 2 ^ k := mul_nonneg hcnt (pow_nonneg (by norm_num) k)
    have hshl : shl32 count k = count * 2 ^ k := by
      unfold shl32
      exact wrap32_eq_self _ (by omega) hlt31
    unfold CopyAndShift
    rw [hshl, ensure_err s _ (by omega)]
  · intro hbool
    have hfail : ReadBoolArrayAux s count.toNat =
        (.error (.notEnoughData s.mem.PointerLong s.len s.len 1),
         ⟨s.mem, s.data, s.len, s.len⟩) :=
      boolArrayAux_fail count.toNat s.mem s.data s.len s.pos h0 h1 h2 (by omega)
    constructor
    · show (ReadBoolArrayAux s count.toNat).1 = _
      rw [hfail]
    · show (ReadBoolArrayAux s count.toNat).2.pos = s.len
      rw [hfail]

/-- Witness for C5's amended claim: the boolean clause on a concrete two-byte
stream with `count = 3`, and the bulk clause for 64-bit elements with
`count = 1` on the empty stream. -/
theorem C5_amended_witness :
    ((ReadBoolArray (mkStream ⟨[1, 0], 2, 5⟩) 3).1 =
       .error (.notEnoughData 5 2 2 1) ∧
     (ReadBoolArray (mkStream ⟨[1, 0], 2, 5⟩) 3).2.pos = 2) ∧
    CopyAndShift (mkStream ⟨[], 0, 5⟩) (shl32 1 3) =
      (.error (.notEnoughData 5 0 0 8), mkStream ⟨[], 0, 5⟩) :=
  ⟨(C5_amended_array_failure (mkStream ⟨[1, 0], 2, 5⟩) 3
      (by decide) (by decide) (by decide) (by decide)).2.2 (by decide),
   (C5_amended_array_failure (mkStream ⟨[], 0, 5⟩) 1
      (by decide) (by decide) (by decide) (by decide)).1 3 (by decide) (by decide)⟩

theorem readRaw_ok_inv (s t : InteropInputStream) (size : Nat) (v : Nat)
    (h0 : 0 ≤ s.pos) (h1 : s.pos ≤ s.len) (h2 : s.len < 2 ^ 31)
    (h : readRaw s size = (.ok v, t)) :
    t = { s with pos := s.pos + (size : Int) } ∧ (size : Int) ≤ s.len - s.pos := by
  by_cases hc : s.len - s.pos < (size : Int)
  · rw [(readRaw_spec s size h0 h1 h2).1 hc] at h
    exact absurd (congrArg Prod.fst h) (by simp)
  · rw [(readRaw_spec s size h0 h1 h2).2 (by omega)] at h
    exact ⟨(congrArg Prod.snd h).symm, by omega⟩

theorem seqRead_invariant (s t : InteropInputStream) (size : Nat) (interp : Nat → Int)
    (v : Int) (hInv : Invariant s) (h2 : s.len < 2 ^ 31)
    (h : mapRead (readRaw s size) interp = (.ok v, t)) :
    Invariant t ∧ t.len = s.len := by
  obtain ⟨w, hw, -⟩ := mapRead_ok_inv _ _ _ _ h
  obtain ⟨ht, hsz⟩ := readRaw_ok_inv s t size w hInv.1 hInv.2 h2 hw
  rw [ht]
  refine ⟨⟨?_, ?_⟩, rfl⟩
  · show 0 ≤ s.pos + (size : Int)
    have := hInv.1
    omega
  · show s.pos + (size : Int) ≤ s.len
    omega

theorem ReadBool_ok_inv (s t : InteropInputStream) (b : Bool)
    (hInv : Invariant s) (h2 : s.len < 2 ^ 31)
    (h : ReadBool s = (.ok b, t)) : Invariant t ∧ t.len = s.len := by
  unfold ReadBool at h
  rcases hR : ReadInt8 s with ⟨a, u⟩
  rw [hR] at h
  cases a with
  | error e => exact absurd (congrArg Prod.fst h) (by simp)
  | ok v =>
    have ht : t = u := (congrArg Prod.snd h).symm
    rw [ht]
    exact seqRead_invariant s u 1 (toSigned 8) v hInv h2 hR

theorem boolArrayAux_ok_inv : ∀ (n : Nat) (s t : InteropInputStream) (v : List Bool),
    Invariant s → s.len < 2 ^ 31 → ReadBoolArrayAux s n = (.ok v, t) →
    Invariant t ∧ t.len = s.len := by
  intro n
  induction n with
  | zero =>
    intro s t v hInv h2 h
    simp only [ReadBoolArrayAux] at h
    have ht : t = s := (congrArg Prod.snd h).symm
    rw [ht]
    exact ⟨hInv, rfl⟩
  | succ m ih =>
    intro s t v hInv h2 h
    simp only [ReadBoolArrayAux] at h
    rcases hR : ReadBool s with ⟨a, u⟩
    rw [hR] at h
    cases a with
    | error e => simp at h
    | ok b =>
      simp only [] at h
      obtain ⟨hu, hul⟩ := ReadBool_ok_inv s u b hInv h2 hR
      rcases hA : ReadBoolArrayAux u m with ⟨a2, u2⟩
      rw [hA] at h
      cases a2 with
      | error e => simp at h
      | ok bs =>
        simp only [Prod.mk.injEq] at h
        obtain ⟨-, ht⟩ := h
        obtain ⟨hi2, hl2⟩ := ih u u2 bs hu (by omega) hA
        rw [← ht]
        exact ⟨hi2, by omega⟩

theorem CopyAndShift_ok_inv (s t : InteropInputStream) (c : Int) (v : List Nat)
    (hInv : Invariant s) (h2 : s.len < 2 ^ 31) (hc : 0 ≤ c)
    (h : CopyAndShift s c = (.ok v, t)) : Invariant t := by
  unfold CopyAndShift at h
  cases hE : EnsureEnoughData s c with
  | error e =>
    rw [hE] at h
    exact absurd (congrArg Prod.fst h) (by simp)
  | ok u =>
    rw [hE] at h
    have ht : t = Shift s c := (congrArg Prod.snd h).symm
    have hfit : c ≤ wrap32 (s.len - s.pos) := ensure_ok_inv s c (by rw [hE])
    have hw : wrap32 (s.len - s.pos) = s.len - s.pos :=
      wrap32_eq_self _ (by have := hInv.1; have := hInv.2; omega)
        (by have := hInv.1; omega)
    have h0 := hInv.1
    have h1 := hInv.2
    have hw2 : wrap32 (s.pos + c) = s.pos + c :=
      wrap32_eq_self _ (by omega) (by omega)
    rw [ht]
    unfold Shift
    rw [hw2]
    exact ⟨by show 0 ≤ s.pos + c; omega, by show s.pos + c ≤ s.len; omega⟩

/-- C3 is false as stated: `Ignore` (the spec's `Skip`) is one of the cursor
operations, it completes without error, yet from the valid state
`position = 0`, `limit = 0` the call `Ignore 1` produces `position = 1 >
limit`, violating `0 ≤ position ≤ limit`. -/
theorem C3_counterexample :
    Invariant (mkStream ⟨[], 0, 0⟩) ∧ ¬ Invariant (Ignore (mkStream ⟨[], 0, 0⟩) 1) := by
  constructor
  · exact ⟨by decide, by decide⟩
  · intro h
    have h2 := h.2
    have : (Ignore (mkStream ⟨[], 0, 0⟩) 1).pos = 1 := rfl
    have hlen : (Ignore (mkStream ⟨[], 0, 0⟩) 1).len = 0 := rfl
    omega

/-- C3 amended: the invariant `0 ≤ position ≤ limit` is established by
construction (default construction when the owner's length is nonnegative;
successful explicit-limit construction when the requested limit is
nonnegative) and is preserved by every successful sequential fixed-width
read, boolean read, boolean-array read, bulk array read with nonnegative
byte count, and `SetPosition` with nonnegative argument; positional reads
never change the state; `Synchronize` preserves it when the refreshed length
is still at least the current position.  It is NOT preserved by `Ignore`
(which is unchecked), by `SetPosition` with negative input, by array reads
whose wrapped 32-bit byte count is negative, or by `Synchronize` when the
owner shrank below the current position. -/
theorem C3_amended_invariant_preservation (s : InteropInputStream)
    (m : InteropMemory) (c p q : Int) (n : Nat)
    (hInv : Invariant s) (hlen : s.len < 2 ^ 31) :
    (0 ≤ m.Length → Invariant (mkStream m)) ∧
    (∀ t, 0 ≤ c → mkStreamWithLen m c = .ok t → Invariant t) ∧
    (∀ v t, ReadInt8 s = (.ok v, t) → Invariant t) ∧
    (∀ v t, ReadInt16 s = (.ok v, t) → Invariant t) ∧
    (∀ v t, ReadUInt16 s = (.ok v, t) → Invariant t) ∧
    (∀ v t, ReadInt32 s = (.ok v, t) → Invariant t) ∧
    (∀ v t, ReadInt64 s = (.ok v, t) → Invariant t) ∧
    (∀ v t, ReadBool s = (.ok v, t) → Invariant t) ∧
    (∀ v t, ReadBoolArrayAux s n = (.ok v, t) → Invariant t) ∧
    (∀ v t, 0 ≤ c → CopyAndShift s c = (.ok v, t) → Invariant t) ∧
    ((ReadInt8At s q).2 = s ∧ (ReadInt16At s q).2 = s ∧ (ReadInt32At s q).2 = s) ∧
    (∀ t, 0 ≤ p → SetPosition s p = (.ok (), t) → Invariant t) ∧
    (s.pos ≤ m.Length → Invariant (Synchronize s m)) := by
  refine ⟨?_, ?_, ?_, ?_, ?_, ?_, ?_, ?_, ?_, ?_, ?_, ?_, ?_⟩
  · intro hm
    exact ⟨le_refl 0, hm⟩
  · intro t hc h
    unfold mkStreamWithLen at h
    by_cases hgt : m.Length < c
    · rw [if_pos hgt] at h
      exact absurd h (by simp)
    · rw [if_neg hgt] at h
      have ht : t = ⟨m, m.Data, c, 0⟩ := (Except.ok.inj h).symm
      rw [ht]
      exact ⟨le_refl 0, hc⟩
  · intro v t h
    exact (seqRead_invariant s t 1 (toSigned 8) v hInv hlen h).1
  · intro v t h
    exact (seqRead_invariant s t 2 (toSigned 16) v hInv hlen h).1
  · intro v t h
    exact (seqRead_invariant s t 2 (toUnsigned 16) v hInv hlen h).1
  · intro v t h
    exact (seqRead_invariant s t 4 (toSigned 32) v hInv hlen h).1
  · intro v t h
    exact (seqRead_invariant s t 8 (toSigned 64) v hInv hlen h).1
  · intro v t h
    exact (ReadBool_ok_inv s t v hInv hlen h).1
  · intro v t h
    exact (boolArrayAux_ok_inv n s t v hInv hlen h).1
  · intro v t hc h
    exact CopyAndShift_ok_inv s t c v hInv hlen hc h
  · refine ⟨?_, ?_, ?_⟩ <;>
      (show (mapRead _ _).2 = s; rw [mapRead_state, readAtRaw_state])
  · intro t hp h
    unfold SetPosition at h
    by_cases hle : p ≤ s.len
    · rw [if_pos hle] at h
      have ht : t = { s with pos := p } := (congrArg Prod.snd h).symm
      rw [ht]
      exact ⟨hp, hle⟩
    · rw [if_neg hle] at h
      exact absurd (congrArg Prod.fst h) (by simp)
  · intro hm
    exact ⟨hInv.1, hm⟩

/-- Witness for C3's amended claim: the construction clause on the concrete
memory `memEx`, through a direct application of the amended theorem at the
concrete state `sEx`. -/
theorem C3_amended_witness : Invariant (mkStream memEx) :=
  (C3_amended_invariant_preservation sEx memEx 0 0 0 0
      ⟨by decide, by decide⟩ (by decide)).1 (by decide)

theorem getD_lt_256 (d : List Nat) (n : Nat) (h : ∀ b ∈ d, b < 256) :
    d.getD n 0 < 256 := by
  induction d generalizing n with
  | nil => simp [List.getD]
  | cons a tl ih =>
    cases n with
    | zero => simpa using h a (by simp)
    | succ m =>
      simp only [List.getD_cons_succ]
      exact ih m (fun b hb => h b (by simp [hb]))

theorem byteAt_lt_256 (d : List Nat) (i : Int) (h : ∀ b ∈ d, b < 256) :
    byteAt d i < 256 := by
  unfold byteAt
  split
  · exact getD_lt_256 d i.toNat h
  · omega

theorem toSigned8_eq_one_iff (b : Nat) (hb : b < 256) : toSigned 8 b = 1 ↔ b = 1 := by
  unfold toSigned
  have hm : (b : Int) % 2 ^ 8 = (b : Int) := by omega
  rw [hm]
  split <;> omega

/-- C9: a single boolean read decodes as `true` iff the byte read equals
exactly 1 (any other byte value, including 0 and values greater than 1,
decodes as `false`), and — the boolean-array read being performed
element-wise as repeated single-boolean reads — the byte array
`[1, 0, 1, 2, 0xFF]` decodes to `[true, false, true, false, false]`. -/
theorem C9_boolean_decode (s : InteropInputStream)
    (h0 : 0 ≤ s.pos) (h1 : s.pos ≤ s.len) (h2 : s.len < 2 ^ 31)
    (hbytes : ∀ b ∈ s.data, b < 256) (havail : (1 : Int) ≤ s.len - s.pos) :
    (∀ b' t, ReadBool s = (.ok b', t) → (b' = true ↔ byteAt s.data s.pos = 1)) ∧
    ReadBoolArray (mkStream ⟨[1, 0, 1, 2, 255], 5, 0⟩) 5 =
      (.ok [true, false, true, false, false],
       ⟨⟨[1, 0, 1, 2, 255], 5, 0⟩, [1, 0, 1, 2, 255], 5, 5⟩) := by
  constructor
  · intro b' t h
    rw [ReadBool_of_avail s h0 h1 h2 havail] at h
    have hb' : b' = (toSigned 8 (bytesToNat s.data s.pos 1) == 1) :=
      (Except.ok.inj (congrArg Prod.fst h)).symm
    have hbyte : bytesToNat s.data s.pos 1 = byteAt s.data s.pos := by
      simp [bytesToNat]
    rw [hb', hbyte]
    simp only [beq_iff_eq]
    exact toSigned8_eq_one_iff _ (byteAt_lt_256 s.data s.pos hbytes)
  · rfl

/-- Witness for C9 on the concrete stream `sEx` (first byte 5, decoding to
`false`). -/
theorem C9_witness :
    (∀ b' t, ReadBool sEx = (.ok b', t) → (b' = true ↔ byteAt sEx.data sEx.pos = 1)) ∧
    ReadBoolArray (mkStream ⟨[1, 0, 1, 2, 255], 5, 0⟩) 5 =
      (.ok [true, false, true, false, false],
       ⟨⟨[1, 0, 1, 2, 255], 5, 0⟩, [1, 0, 1, 2, 255], 5, 5⟩) :=
  C9_boolean_decode sEx (by decide) (by decide) (by decide) (by decide) (by decide)

/-- C10: for every bulk array read `ReadXArray(count)`, the byte length that
is bounds-checked, copied and added to the position is `count` shifted left
by `log2(size)` in signed 32-bit arithmetic, i.e. `(count * size) mod 2^32`
reinterpreted as a signed 32-bit value, not the exact mathematical product;
concretely, for 64-bit elements `count = 2^28` yields the wrapped byte count
`-2^31`, so the `InsufficientData` check passes on an empty stream even
though the mathematical byte count `2^31` exceeds the zero bytes
remaining. -/
theorem C10_array_byte_length_wraps :
    (∀ (s : InteropInputStream) (count : Int),
      ReadInt8Array s count = CopyAndShift s (wrap32 (count * 1)) ∧
      ReadInt16Array s count = CopyAndShift s (wrap32 (count * 2)) ∧
      ReadUInt16Array s count = CopyAndShift s (wrap32 (count * 2)) ∧
      ReadInt32Array s count = CopyAndShift s (wrap32 (count * 4)) ∧
      ReadInt64Array s count = CopyAndShift s (wrap32 (count * 8)) ∧
      ReadFloatArray s count = CopyAndShift s (wrap32 (count * 4)) ∧
      ReadDoubleArray s count = CopyAndShift s (wrap32 (count * 8))) ∧
    wrap32 ((2 ^ 28) * 8) = -(2 ^ 31) ∧
    ((2 ^ 28) : Int) * 8 > (mkStream ⟨[], 0, 0⟩).len - (mkStream ⟨[], 0, 0⟩).pos ∧
    ReadInt64Array (mkStream ⟨[], 0, 0⟩) (2 ^ 28) =
      (.ok [], ⟨⟨[], 0, 0⟩, [], 0, -(2 ^ 31)⟩) := by
  refine ⟨?_, by decide, by decide, rfl⟩
  intro s count
  exact ⟨rfl, rfl, rfl, rfl, rfl, rfl, rfl⟩

end Ignite
